import Mathlib

/-
Verification development for the Ansible module
library/docker_container_configurator.py of the role
docker_compose_containers.

The Python module is embedded shallowly:

* Python values appearing in templates and configurations (None, bool,
  numbers, str, list, dict) become the inductive type Value.  Python
  dicts become association lists (type Dict); the dict iteration order
  of Python is modelled by the list order, and lookup takes the first
  matching key (Python dicts never hold a key twice).
* The jinja2 templating engine is an external collaborator of the
  module (it is not part of this repository).  It is modelled as an
  abstract total function rs taking the template string and the
  context dict to the rendered string.  The rendered-value walker
  _render_value returns Python None both for the value None and for
  a pruned (absent) value; that shared sentinel is modelled by
  Option Value, with none standing for the Python None object.
* Functions that can raise exceptions are modelled in the Except
  monad; the bounded recursion in _get_parent_template and
  get_link_order (the level is incremented on every call and checked
  against the ceiling 20) is realised by a structurally decreasing
  fuel argument that starts at 21 and mirrors 21 minus the recursion
  level, so that the fuel can run out only after the source check
  recursion_level > 20 has already fired.
* Mutation of the caller-supplied config dict in
  _create_rendered_configuration (the CONTAINER_CONFIG_NAME entry) is
  modelled by returning the updated dict next to the rendered result.
-/

/-- Python values stored in container templates and configurations. -/
inductive Value where
  | vnull : Value
  | vbool (b : Bool) : Value
  | vnum (n : Int) : Value
  | vstr (s : String) : Value
  | vlist (items : List Value) : Value
  | vdict (entries : List (String × Value)) : Value

/-- Python dicts with string keys, as association lists. -/
abbrev Dict := List (String × Value)

mutual
def decEqV : (a b : Value) → Decidable (a = b)
  | Value.vnull, Value.vnull => isTrue rfl
  | Value.vnull, Value.vbool _ => isFalse nofun
  | Value.vnull, Value.vnum _ => isFalse nofun
  | Value.vnull, Value.vstr _ => isFalse nofun
  | Value.vnull, Value.vlist _ => isFalse nofun
  | Value.vnull, Value.vdict _ => isFalse nofun
  | Value.vbool _, Value.vnull => isFalse nofun
  | Value.vbool x, Value.vbool y =>
    if h : x = y then isTrue (by rw [h]) else isFalse (by intro hh; injection hh; contradiction)
  | Value.vbool _, Value.vnum _ => isFalse nofun
  | Value.vbool _, Value.vstr _ => isFalse nofun
  | Value.vbool _, Value.vlist _ => isFalse nofun
  | Value.vbool _, Value.vdict _ => isFalse nofun
  | Value.vnum _, Value.vnull => isFalse nofun
  | Value.vnum _, Value.vbool _ => isFalse nofun
  | Value.vnum x, Value.vnum y =>
    if h : x = y then isTrue (by rw [h]) else isFalse (by intro hh; injection hh; contradiction)
  | Value.vnum _, Value.vstr _ => isFalse nofun
  | Value.vnum _, Value.vlist _ => isFalse nofun
  | Value.vnum _, Value.vdict _ => isFalse nofun
  | Value.vstr _, Value.vnull => isFalse nofun
  | Value.vstr _, Value.vbool _ => isFalse nofun
  | Value.vstr _, Value.vnum _ => isFalse nofun
  | Value.vstr x, Value.vstr y =>
    if h : x = y then isTrue (by rw [h]) else isFalse (by intro hh; injection hh; contradiction)
  | Value.vstr _, Value.vlist _ => isFalse nofun
  | Value.vstr _, Value.vdict _ => isFalse nofun
  | Value.vlist _, Value.vnull => isFalse nofun
  | Value.vlist _, Value.vbool _ => isFalse nofun
  | Value.vlist _, Value.vnum _ => isFalse nofun
  | Value.vlist _, Value.vstr _ => isFalse nofun
  | Value.vlist xs, Value.vlist ys =>
    match decEqLV xs ys with
    | isTrue h => isTrue (by rw [h])
    | isFalse h => isFalse (by intro hh; injection hh; contradiction)
  | Value.vlist _, Value.vdict _ => isFalse nofun
  | Value.vdict _, Value.vnull => isFalse nofun
  | Value.vdict _, Value.vbool _ => isFalse nofun
  | Value.vdict _, Value.vnum _ => isFalse nofun
  | Value.vdict _, Value.vstr _ => isFalse nofun
  | Value.vdict _, Value.vlist _ => isFalse nofun
  | Value.vdict xs, Value.vdict ys =>
    match decEqEV xs ys with
    | isTrue h => isTrue (by rw [h])
    | isFalse h => isFalse (by intro hh; injection hh; contradiction)

def decEqLV : (xs ys : List Value) → Decidable (xs = ys)
  | [], [] => isTrue rfl
  | [], _ :: _ => isFalse nofun
  | _ :: _, [] => isFalse nofun
  | x :: xs, y :: ys =>
    match decEqV x y, decEqLV xs ys with
    | isTrue h1, isTrue h2 => isTrue (by rw [h1, h2])
    | isFalse h1, _ => isFalse (by intro hh; injection hh; contradiction)
    | _, isFalse h2 => isFalse (by intro hh; injection hh; contradiction)

def decEqEV : (xs ys : List (String × Value)) → Decidable (xs = ys)
  | [], [] => isTrue rfl
  | [], _ :: _ => isFalse nofun
  | _ :: _, [] => isFalse nofun
  | (k1, v1) :: xs, (k2, v2) :: ys =>
    match String.decEq k1 k2, decEqV v1 v2, decEqEV xs ys with
    | isTrue h0, isTrue h1, isTrue h2 => isTrue (by rw [h0, h1, h2])
    | isFalse h0, _, _ =>
      isFalse (by intro hh; injection hh with ha hb; rw [Prod.mk.injEq] at ha; exact h0 ha.1)
    | _, isFalse h1, _ =>
      isFalse (by intro hh; injection hh with ha hb; rw [Prod.mk.injEq] at ha; exact h1 ha.2)
    | _, _, isFalse h2 => isFalse (by intro hh; injection hh with ha hb; exact h2 hb)
end

instance : DecidableEq Value := decEqV

/-- Python dict lookup d[k] (as an Option, none when the key is missing).
Also plays the role of the has_key tests of the source. -/
def dlookup : Dict → String → Option Value
  | [], _ => none
  | (k, v) :: rest, key => if k = key then some v else dlookup rest key

/-- Python dict assignment d[k] = v: overwrite in place when the key
exists (position kept), append otherwise. -/
def dset (d : Dict) (key : String) (v : Value) : Dict :=
  if (dlookup d key).isSome then
    d.map (fun kv => if kv.1 = key then (key, v) else kv)
  else
    d ++ [(key, v)]

/-- Entries of the second dict whose key is not in the first dict.
Together with mergeFirstPart this realises the loop of _merge_dicts
over the union of the key sets: the result lists the keys of the
first dict first (in their order) and then the keys found only in
the second dict (Python iterates an unordered key set; any fixed
order is a faithful choice because only dict semantics matter). -/
def secondOnly (d1 d2 : Dict) : Dict :=
  d2.filter (fun kv => (dlookup d1 kv.1).isNone)

mutual
/-- Per-key combination of _merge_dicts for a key present in both
dicts: two dicts merge recursively, two lists concatenate, any other
pair is replaced by the second value (source lines 76 to 85). -/
def combineVal : Value → Value → Value
  | Value.vdict a, Value.vdict b => Value.vdict (mergeFirstPart a b ++ secondOnly a b)
  | Value.vlist xs, Value.vlist ys => Value.vlist (xs ++ ys)
  | _, v2 => v2

/-- Keys of the first dict, combined with the second dict where the
key is shared (source lines 75 to 89). -/
def mergeFirstPart : Dict → Dict → Dict
  | [], _ => []
  | (k, v1) :: rest, d2 =>
    match dlookup d2 k with
    | some v2 => (k, combineVal v1 v2) :: mergeFirstPart rest d2
    | none => (k, v1) :: mergeFirstPart rest d2
end

/-- Body of _merge_dicts on two present (non-None) dicts: the keys of
the first dict (combined where shared) followed by the keys found
only in the second dict. -/
def mergeEntries (d1 d2 : Dict) : Dict :=
  mergeFirstPart d1 d2 ++ secondOnly d1 d2

/-- The function _merge_dicts (source lines 49 to 91).  The two
arguments may be Python None (modelled none); both absent gives the
empty dict, one absent gives the other argument. -/
def mergeDicts : Option Dict → Option Dict → Dict
  | none, none => []
  | none, some d => d
  | some d, none => d
  | some d1, some d2 => mergeEntries d1 d2

/-- Lowercase hex digit, the character class of the omit regex. -/
def isHexLower (c : Char) : Bool :=
  c.isDigit || (decide ('a' ≤ c) && decide (c ≤ 'f'))

/-- Strip a literal character list from the front, returning the rest. -/
def stripLit : List Char → List Char → Option (List Char)
  | [], cs => some cs
  | _ :: _, [] => none
  | l :: ls, c :: cs => if c = l then stripLit ls cs else none

/-- Strip exactly n lowercase hex digits from the front. -/
def stripHex : Nat → List Char → Option (List Char)
  | 0, cs => some cs
  | _ + 1, [] => none
  | n + 1, c :: cs => if isHexLower c then stripHex n cs else none

/-- The literal part of the ansible omit placeholder pattern. -/
def omitLit : List Char := "__omit_place_holder__".toList

/-- Match the full omit placeholder (literal plus 40 hex digits) at
the front of the character list, returning the remainder. -/
def matchOmit (cs : List Char) : Option (List Char) :=
  (stripLit omitLit cs).bind (stripHex 40)

/-- Left-to-right, non-overlapping removal of omit placeholders, the
re.sub of _remove_omit_placeholder on the character level.  The fuel
argument keeps the recursion structural; removeOmit supplies the
length of the character list and every step consumes at least one
character (a placeholder match consumes 61, witnessed by
matchOmit_length), so the fuel-exhaustion branch is never taken on
the calls made by removeOmit. -/
def removeOmitGo : Nat → List Char → List Char
  | _, [] => []
  | 0, cs => cs
  | fuel + 1, c :: rest =>
    match matchOmit (c :: rest) with
    | some rest2 => removeOmitGo fuel rest2
    | none => c :: removeOmitGo fuel rest

/-- The function _remove_omit_placeholder (source lines 93 to 104). -/
def removeOmit (s : String) : String :=
  String.mk (removeOmitGo s.toList.length s.toList)

/-- A rendering context: the config dict of an instance. -/
abbrev Context := Dict

/-- Type of the jinja2 collaborator: a template string and a context
produce a rendered string.  The source builds a jinja2 environment
with the required filter and calls from_string(...).render(context);
that engine is not part of this repository, so it is abstracted as a
total function (render-time exceptions are outside the claims that
use this model). -/
abbrev RenderString := String → Context → String

mutual
/-- The method _render_value (source lines 158 to 191).  A result of
none is the Python None object: both the pruned (absent) results and
the rendering of the value None itself, which the final else branch
returns unchanged and which the callers then drop. -/
def renderValue (rs : RenderString) : Value → Context → Option Value
  | Value.vdict entries, ctx =>
    let newValue := renderEntries rs entries ctx
    if newValue.length > 0 then some (Value.vdict newValue) else none
  | Value.vlist items, ctx =>
    let newValue := renderItems rs items ctx
    if newValue.length > 0 then some (Value.vlist newValue) else none
  | Value.vstr s, ctx =>
    let result := rs (removeOmit s) ctx
    if result.length > 0 then some (Value.vstr result) else none
  | Value.vnull, _ => none
  | v, _ => some v

/-- The dict loop of _render_value: keys whose rendered value is
None are dropped. -/
def renderEntries (rs : RenderString) : List (String × Value) → Context → List (String × Value)
  | [], _ => []
  | (k, v) :: rest, ctx =>
    match renderValue rs v ctx with
    | some result => (k, result) :: renderEntries rs rest ctx
    | none => renderEntries rs rest ctx

/-- The list loop of _render_value: items whose rendered value is
None are dropped. -/
def renderItems (rs : RenderString) : List Value → Context → List Value
  | [], _ => []
  | item :: rest, ctx =>
    match renderValue rs item ctx with
    | some result => result :: renderItems rs rest ctx
    | none => renderItems rs rest ctx
end

/-- The fixed whitelist of official docker parameters of
_get_docker_parameter_from_config (source lines 226 to 307). -/
def officialParameter : List String :=
  ["api_version", "auto_remove", "blkio_weight", "cacert_path", "capabilities",
   "cert_path", "cleanup", "command", "cpu_period", "cpu_quota", "cpu_shares",
   "cpuset_cpus", "cpuset_mems", "detach", "devices", "dns_search_domains",
   "dns_servers", "docker_host", "entrypoint", "env", "env_file", "etc_hosts",
   "exposed_ports", "force_kill", "groups", "hostname", "ignore_image", "image",
   "interactive", "ipc_mode", "keep_volumes", "kernel_memory", "key_path",
   "kill_signal", "labels", "links", "log_driver", "log_options", "mac_address",
   "memory", "memory_reservation", "memory_swap", "memory_swappiness", "name",
   "network_mode", "networks", "oom_killer", "oom_score_adj", "paused",
   "pid_mode", "privileged", "published_ports", "pull", "purge_networks",
   "read_only", "recreate", "restart", "restart_policy", "restart_retries",
   "security_opts", "shm_size", "ssl_version", "state", "stop_signal",
   "stop_timeout", "sysctls", "timeout", "tls", "tls_hostname", "tls_verify",
   "tmpfs", "trust_image_content", "tty", "ulimits", "user", "uts",
   "volume_driver", "volumes", "volumes_from", "working_dir"]

/-- The method _get_docker_parameter_from_config (source lines 216 to
313): keep exactly the config entries whose key is in the whitelist,
in whitelist order. -/
def getDockerParameterFromConfig (cntConfig : Dict) : Dict :=
  officialParameter.foldl (fun result param => result ++ cntConfig.filter (fun kv => kv.1 = param)) []

/-- A resolved container template: its name and its template dict. -/
structure ContainerTemplate where
  name : String
  template : Dict
deriving DecidableEq

/-- The method _create_rendered_configuration (source lines 193 to
214).  The source mutates the caller-supplied config dict by adding
the CONTAINER_CONFIG_NAME entry before rendering; the mutated dict is
returned as the second component. -/
def createRenderedConfiguration (rs : RenderString) (name : String) (template : ContainerTemplate) (config : Dict) : Dict × Dict :=
  let cntTemplate := mergeDicts (some template.template) (some (getDockerParameterFromConfig config))
  let config2 := dset config "CONTAINER_CONFIG_NAME" (Value.vstr name)
  let configuredContainer := cntTemplate.filterMap
    (fun kv => (renderValue rs kv.2 config2).map (fun result => (kv.1, result)))
  (configuredContainer, config2)

/-- A rendered container configuration: the instance name (_name),
the name of the template used (_defintion_name) and the rendered
configuration dict (_configuration). -/
structure ContainerConfiguration where
  name : String
  templateName : String
  configuration : Dict
deriving DecidableEq

/-- The missing image KeyError message of the ContainerConfiguration
constructor (source line 129). -/
def missingImageMsg : String :=
  "Invalid container configuration, because the template does not contain an image tag"

/-- The constructor of ContainerConfiguration (source lines 119 to
129): render, then fail when the rendered configuration has no image
key or the image value is None.  The mutated config dict is returned
next to the built configuration. -/
def containerConfigurationInit (rs : RenderString) (name : String) (template : ContainerTemplate) (config : Dict) : Except String (ContainerConfiguration × Dict) :=
  match dlookup (createRenderedConfiguration rs name template config).1 "image" with
  | none => Except.error missingImageMsg
  | some Value.vnull => Except.error missingImageMsg
  | some _ =>
    Except.ok
      ({ name := name, templateName := template.name,
         configuration := (createRenderedConfiguration rs name template config).1 },
       (createRenderedConfiguration rs name template config).2)

/-- The method get_linked_container (source lines 315 to 330): the
links entry as a list, a single string wrapped in a list, or None. -/
def getLinkedContainer (c : ContainerConfiguration) : Option (List Value) :=
  match dlookup c.configuration "links" with
  | some (Value.vlist links) => some links
  | some (Value.vstr s) => some [Value.vstr s]
  | _ => none

/-- The partial templates input: a dict mapping template names to
template dicts. -/
abbrev PartialTemplates := List (String × Dict)

/-- Lookup in the partial templates dict. -/
def tlookup : PartialTemplates → String → Option Dict
  | [], _ => none
  | (k, v) :: rest, key => if k = key then some v else tlookup rest key

/-- The RuntimeError message of _get_parent_template. -/
def cyclicBasedOnMsg : String :=
  "Maximum recursion depth exceeded. Check your code for a cyclic based_on statement"

/-- The method _get_parent_template (source lines 366 to 404).  The
source checks the recursion level against the ceiling 20 and passes
the incremented level to every recursive call; the extra fuel
argument makes that recursion structural.  getParentTemplate calls
it with fuel 21 minus the level, so the fuel can reach zero only at
level at least 21, where the source check recursion_level > 20 has
already produced the same error; the fuel-zero branch is therefore
unreachable and carries the same error value. -/
def goTemplate : Nat → String → PartialTemplates → Nat → Except String Dict
  | fuel, parentName, partialTemplates, recursionLevel =>
    match tlookup partialTemplates parentName with
    | none => Except.error ("Container template does not contain " ++ parentName)
    | some partialTemplate =>
      if recursionLevel > 20 then Except.error cyclicBasedOnMsg
      else
        match fuel with
        | 0 => Except.error cyclicBasedOnMsg
        | fuel2 + 1 =>
          match dlookup partialTemplate "based_on" with
          | none => Except.ok partialTemplate
          | some basedOn =>
            match basedOn with
            | Value.vnull => Except.ok partialTemplate
            | Value.vlist parents =>
              parents.foldl (fun acc parent =>
                match acc with
                | Except.error e => Except.error e
                | Except.ok cntTemplate =>
                  match parent with
                  | Value.vstr str =>
                    let parent2 := removeOmit str
                    if parent2 = "" then Except.ok cntTemplate
                    else
                      match goTemplate fuel2 parent2 partialTemplates (recursionLevel + 1) with
                      | Except.error e => Except.error e
                      | Except.ok parentTemplate =>
                        Except.ok (mergeDicts (some parentTemplate) (some cntTemplate))
                  | _ => Except.ok cntTemplate) (Except.ok partialTemplate)
            | Value.vstr str =>
              let parent2 := removeOmit str
              if parent2 = "" then Except.ok partialTemplate
              else
                match goTemplate fuel2 parent2 partialTemplates (recursionLevel + 1) with
                | Except.error e => Except.error e
                | Except.ok parentTemplate =>
                  Except.ok (mergeDicts (some parentTemplate) (some partialTemplate))
            | _ => Except.ok partialTemplate

/-- The method _get_parent_template at a given recursion level. -/
def getParentTemplate (parentName : String) (partialTemplates : PartialTemplates) (recursionLevel : Nat) : Except String Dict :=
  goTemplate (21 - recursionLevel) parentName partialTemplates recursionLevel

/-- The constructor of ContainerTemplate (source lines 344 to 346):
resolve the inheritance chain starting at recursion level 0. -/
def containerTemplateInit (name : String) (partialTemplates : PartialTemplates) : Except String ContainerTemplate :=
  match getParentTemplate name partialTemplates 0 with
  | Except.error e => Except.error e
  | Except.ok t => Except.ok { name := name, template := t }

/-- Convenience for claims: resolve a template and look a key up in
the result (none when resolution failed or the key is absent). -/
def resolvedLookup (name : String) (partialTemplates : PartialTemplates) (key : String) : Option Value :=
  (containerTemplateInit name partialTemplates).toOption.bind (fun t => dlookup t.template key)

/-- The RuntimeError message of get_link_order. -/
def cyclicLinkMsg : String :=
  "Maximum recursion depth exceeded. Check your template for cyclic container linking"

/-- The regex match of get_link_order, pattern dot star quest before a
colon lookahead (source line 474): the shortest prefix of non-newline
characters that is followed by a colon.  Returns the characters
before the first colon when the first colon is not preceded by a
newline, and none when the regex does not match. -/
def beforeColon : List Char → Option (List Char)
  | [] => none
  | c :: rest =>
    if c = ':' then some []
    else if c = '\n' then none
    else
      match beforeColon rest with
      | some pre => some (c :: pre)
      | none => none

/-- Link-name stripping of get_link_order (source lines 473 to 476):
when the regex matches, keep only the text before the first colon,
otherwise keep the link text unchanged. -/
def stripAlias (s : String) : String :=
  match beforeColon s.toList with
  | some pre => String.mk pre
  | none => s

/-- The inner scan of get_link_order (source lines 477 to 481): the
first configuration whose rendered name entry equals the stripped
link target.  A name entry that is absent or not the right string
never matches (Python equality between different types is False). -/
def findByName (containerConfigurations : List ContainerConfiguration) (target : String) : Option ContainerConfiguration :=
  containerConfigurations.find?
    (fun cfg => dlookup cfg.configuration "name" == some (Value.vstr target))

/-- The function get_link_order (source lines 452 to 483), with the
same structural-fuel treatment as goTemplate: getLinkOrder calls it
with fuel 21 minus the recursion level, making the fuel-zero branch
unreachable (the source ceiling check fires first) with the same
error value.  A link entry that is not a string makes the source
call re.match on a non-string, raising a TypeError. -/
def goLinkOrder : Nat → ContainerConfiguration → List ContainerConfiguration → Nat → Except String (List ContainerConfiguration)
  | fuel, configuration, containerConfigurations, recursionLevel =>
    if recursionLevel > 20 then Except.error cyclicLinkMsg
    else
      match fuel with
      | 0 => Except.error cyclicLinkMsg
      | fuel2 + 1 =>
        match getLinkedContainer configuration with
        | none => Except.ok [configuration]
        | some cntLinks =>
          cntLinks.foldl (fun acc cntLink =>
            match acc with
            | Except.error e => Except.error e
            | Except.ok cntLinkOrder =>
              match cntLink with
              | Value.vstr s =>
                match findByName containerConfigurations (stripAlias s) with
                | some cntConfig =>
                  match goLinkOrder fuel2 cntConfig containerConfigurations (recursionLevel + 1) with
                  | Except.error e => Except.error e
                  | Except.ok sub => Except.ok (sub ++ cntLinkOrder)
                | none => Except.ok cntLinkOrder
              | _ => Except.error "TypeError: expected string or buffer")
            (Except.ok [configuration])

/-- The function get_link_order at a given recursion level. -/
def getLinkOrder (configuration : ContainerConfiguration) (containerConfigurations : List ContainerConfiguration) (recursionLevel : Nat) : Except String (List ContainerConfiguration) :=
  goLinkOrder (21 - recursionLevel) configuration containerConfigurations recursionLevel

/-- The appending loops of create_run_order (source lines 503 to 505
and 510 to 512): append the elements of the second list that are not
yet present, keeping their order. -/
def appendNew : List ContainerConfiguration → List ContainerConfiguration → List ContainerConfiguration
  | acc, [] => acc
  | acc, l :: rest => if l ∈ acc then appendNew acc rest else appendNew (acc ++ [l]) rest

/-- The inner loop of the priority phase of create_run_order (source
lines 500 to 505): scan all configurations (no break) and append the
link order of every configuration built from the given template
name. -/
def priorityInner (cntTemplateName : Value) (containerConfigurations : List ContainerConfiguration) : List ContainerConfiguration → List ContainerConfiguration → Except String (List ContainerConfiguration)
  | [], acc => Except.ok acc
  | cfg :: rest, acc =>
    if Value.vstr cfg.templateName = cntTemplateName then
      match getLinkOrder cfg containerConfigurations 0 with
      | Except.error e => Except.error e
      | Except.ok linkOrder => priorityInner cntTemplateName containerConfigurations rest (appendNew acc linkOrder)
    else priorityInner cntTemplateName containerConfigurations rest acc

/-- The outer loop of the priority phase of create_run_order (source
lines 498 to 505). -/
def priorityPhase (containerConfigurations : List ContainerConfiguration) : List Value → List ContainerConfiguration → Except String (List ContainerConfiguration)
  | [], acc => Except.ok acc
  | name :: rest, acc =>
    match priorityInner name containerConfigurations containerConfigurations acc with
    | Except.error e => Except.error e
    | Except.ok acc2 => priorityPhase containerConfigurations rest acc2

/-- The second phase of create_run_order (source lines 507 to 512):
place every configuration that is not yet placed, by its link
order. -/
def mainPhase (containerConfigurations : List ContainerConfiguration) : List ContainerConfiguration → List ContainerConfiguration → Except String (List ContainerConfiguration)
  | [], acc => Except.ok acc
  | cfg :: rest, acc =>
    if cfg ∈ acc then mainPhase containerConfigurations rest acc
    else
      match getLinkOrder cfg containerConfigurations 0 with
      | Except.error e => Except.error e
      | Except.ok linkOrder => mainPhase containerConfigurations rest (appendNew acc linkOrder)

/-- The function create_run_order (source lines 486 to 514).  The
priority phase runs only when run_order is a Python list; any other
value (for instance None, when the ansible parameter is absent) is
skipped by the isinstance check. -/
def createRunOrder (containerConfigurations : List ContainerConfiguration) (runOrder : Value) : Except String (List ContainerConfiguration) :=
  match (match runOrder with
         | Value.vlist names => priorityPhase containerConfigurations names []
         | _ => Except.ok []) with
  | Except.error e => Except.error e
  | Except.ok acc => mainPhase containerConfigurations containerConfigurations acc

/-- Decidable equality for Except values, used to evaluate concrete
runs of the embedded functions inside proofs. -/
def decEqExcept {ε α : Type} [DecidableEq ε] [DecidableEq α] : (a b : Except ε α) → Decidable (a = b)
  | Except.error e1, Except.error e2 =>
    if h : e1 = e2 then isTrue (by rw [h]) else isFalse (by intro hh; injection hh; contradiction)
  | Except.error _, Except.ok _ => isFalse nofun
  | Except.ok _, Except.error _ => isFalse nofun
  | Except.ok a1, Except.ok a2 =>
    if h : a1 = a2 then isTrue (by rw [h]) else isFalse (by intro hh; injection hh; contradiction)

instance {ε α : Type} [DecidableEq ε] [DecidableEq α] : DecidableEq (Except ε α) := decEqExcept

/-- Shape test mirroring isinstance(value, dict). -/
def isDict : Value → Bool
  | Value.vdict _ => true
  | _ => false

/-- Shape test mirroring isinstance(value, list). -/
def isList : Value → Bool
  | Value.vlist _ => true
  | _ => false

/-- Template set of the precedence test: A and B both define x, C
inherits from the list of A then B and has no own x. -/
def ptsPrecedence : PartialTemplates :=
  [("A", [("x", Value.vnum 1)]), ("B", [("x", Value.vnum 2)]),
   ("C", [("based_on", Value.vlist [Value.vstr "A", Value.vstr "B"])])]

/-- Template set of the precedence test where C also defines x. -/
def ptsPrecedenceOwn : PartialTemplates :=
  [("A", [("x", Value.vnum 1)]), ("B", [("x", Value.vnum 2)]),
   ("C", [("based_on", Value.vlist [Value.vstr "A", Value.vstr "B"]), ("x", Value.vnum 9)])]

/-- Template set with a based_on cycle between A and B. -/
def ptsCyclic : PartialTemplates :=
  [("A", [("based_on", Value.vstr "B")]), ("B", [("based_on", Value.vstr "A")])]

/-- Template set of the based_on retention test: C is based on A. -/
def ptsBasedOn : PartialTemplates :=
  [("A", [("image", Value.vstr "img")]), ("C", [("based_on", Value.vstr "A"), ("x", Value.vnum 1)])]

/-- The body of the link loop of get_link_order as a named function
(definitionally equal to the foldl lambda inside goLinkOrder, with
the recursion level already incremented). -/
def linkStep (fuel : Nat) (containerConfigurations : List ContainerConfiguration) (recursionLevel : Nat) (acc : Except String (List ContainerConfiguration)) (cntLink : Value) : Except String (List ContainerConfiguration) :=
  match acc with
  | Except.error e => Except.error e
  | Except.ok cntLinkOrder =>
    match cntLink with
    | Value.vstr s =>
      match findByName containerConfigurations (stripAlias s) with
      | some cntConfig =>
        match goLinkOrder fuel cntConfig containerConfigurations recursionLevel with
        | Except.error e => Except.error e
        | Except.ok sub => Except.ok (sub ++ cntLinkOrder)
      | none => Except.ok cntLinkOrder
    | _ => Except.error "TypeError: expected string or buffer"

/-- A resolved link of a configuration: some link entry of its links
field is a string whose stripped target is found among the rendered
names of the given configurations; the found configuration is the
link target. -/
def ResolvedLink (configs : List ContainerConfiguration) (c L : ContainerConfiguration) : Prop :=
  ∃ links s, getLinkedContainer c = some links ∧ Value.vstr s ∈ links ∧
    findByName configs (stripAlias s) = some L

/-- Every occurrence of a configuration in the list is preceded by
every target it links to. -/
def LinksBefore (configs l : List ContainerConfiguration) : Prop :=
  ∀ x L, ResolvedLink configs x L → ∀ p s, l = p ++ x :: s → L ∈ p

/-- Invariant of the accumulated run order: no duplicates, all
elements among the given configurations, and every element preceded
by its resolved link targets. -/
def GoodAcc (configs acc : List ContainerConfiguration) : Prop :=
  acc.Nodup ∧ (∀ x ∈ acc, x ∈ configs) ∧ LinksBefore configs acc

/-- The db configuration of the concrete link ordering test. -/
def dbConfig : ContainerConfiguration :=
  ContainerConfiguration.mk "db" "tdb" [("name", Value.vstr "db"), ("image", Value.vstr "i")]

/-- The web configuration of the concrete link ordering test, linked
to db under an alias. -/
def webConfig : ContainerConfiguration :=
  ContainerConfiguration.mk "web" "tweb"
    [("name", Value.vstr "web"), ("image", Value.vstr "i"),
     ("links", Value.vlist [Value.vstr "db:alias"])]

/-- A configuration whose instance name is db but whose rendered
configuration has no name entry. -/
def dbPlainConfig : ContainerConfiguration :=
  ContainerConfiguration.mk "db" "tdb" [("image", Value.vstr "i")]

/-- A configuration whose instance name is web, linked to db under an
alias, whose rendered configuration has no name entry. -/
def webPlainConfig : ContainerConfiguration :=
  ContainerConfiguration.mk "web" "tweb"
    [("image", Value.vstr "i"), ("links", Value.vlist [Value.vstr "db:alias"])]

theorem stripLit_length : ∀ ls cs r, stripLit ls cs = some r → r.length + ls.length = cs.length
  | [], cs, r => by intro h; simp [stripLit] at h; simp [h]
  | _ :: _, [], r => by intro h; simp [stripLit] at h
  | l :: ls, c :: cs, r => by
    intro h
    simp only [stripLit] at h
    split at h
    · have := stripLit_length ls cs r h
      simp [List.length_cons]
      omega
    · exact absurd h (by simp)

theorem stripHex_length : ∀ n cs r, stripHex n cs = some r → r.length + n = cs.length
  | 0, cs, r => by intro h; simp [stripHex] at h; simp [h]
  | _ + 1, [], r => by intro h; simp [stripHex] at h
  | n + 1, c :: cs, r => by
    intro h
    simp only [stripHex] at h
    split at h
    · have := stripHex_length n cs r h
      simp [List.length_cons]
      omega
    · exact absurd h (by simp)

theorem matchOmit_length (cs r : List Char) (h : matchOmit cs = some r) :
    r.length + 61 = cs.length := by
  simp only [matchOmit, Option.bind_eq_some] at h
  obtain ⟨mid, h1, h2⟩ := h
  have e1 := stripLit_length omitLit cs mid h1
  have e2 := stripHex_length 40 mid r h2
  have : omitLit.length = 21 := by decide
  omega

theorem dlookup_append_of_some {a : Dict} {k : String} {v : Value} (b : Dict)
    (h : dlookup a k = some v) : dlookup (a ++ b) k = some v := by
  induction a with
  | nil => simp [dlookup] at h
  | cons kv rest ih =>
    obtain ⟨k1, v1⟩ := kv
    simp only [List.cons_append, dlookup] at h ⊢
    by_cases hk : k1 = k
    · rwa [if_pos hk] at h ⊢
    · rw [if_neg hk] at h ⊢
      exact ih h

theorem dlookup_append_of_none {a : Dict} {k : String} (b : Dict)
    (h : dlookup a k = none) : dlookup (a ++ b) k = dlookup b k := by
  induction a with
  | nil => simp [dlookup]
  | cons kv rest ih =>
    obtain ⟨k1, v1⟩ := kv
    simp only [List.cons_append, dlookup] at h ⊢
    by_cases hk : k1 = k
    · rw [if_pos hk] at h
      contradiction
    · rw [if_neg hk] at h ⊢
      exact ih h

theorem mergeFirstPart_both {d1 d2 : Dict} {k : String} {v1 v2 : Value}
    (h1 : dlookup d1 k = some v1) (h2 : dlookup d2 k = some v2) :
    dlookup (mergeFirstPart d1 d2) k = some (combineVal v1 v2) := by
  induction d1 with
  | nil => simp [dlookup] at h1
  | cons kv rest ih =>
    obtain ⟨k1, w1⟩ := kv
    simp only [dlookup] at h1
    by_cases hk : k1 = k
    · rw [if_pos hk] at h1
      injection h1 with h1
      subst hk
      subst h1
      simp [mergeFirstPart, h2, dlookup]
    · rw [if_neg hk] at h1
      simp only [mergeFirstPart]
      cases hd : dlookup d2 k1 <;>
        · simp only [dlookup]
          rw [if_neg hk]
          exact ih h1

theorem mergeFirstPart_first {d1 d2 : Dict} {k : String} {v1 : Value}
    (h1 : dlookup d1 k = some v1) (h2 : dlookup d2 k = none) :
    dlookup (mergeFirstPart d1 d2) k = some v1 := by
  induction d1 with
  | nil => simp [dlookup] at h1
  | cons kv rest ih =>
    obtain ⟨k1, w1⟩ := kv
    simp only [dlookup] at h1
    by_cases hk : k1 = k
    · rw [if_pos hk] at h1
      injection h1 with h1
      subst hk
      subst h1
      simp [mergeFirstPart, h2, dlookup]
    · rw [if_neg hk] at h1
      simp only [mergeFirstPart]
      cases hd : dlookup d2 k1 <;>
        · simp only [dlookup]
          rw [if_neg hk]
          exact ih h1

theorem mergeFirstPart_none {d1 : Dict} {k : String} (d2 : Dict)
    (h1 : dlookup d1 k = none) : dlookup (mergeFirstPart d1 d2) k = none := by
  induction d1 with
  | nil => simp [mergeFirstPart, dlookup]
  | cons kv rest ih =>
    obtain ⟨k1, w1⟩ := kv
    simp only [dlookup] at h1
    by_cases hk : k1 = k
    · rw [if_pos hk] at h1
      contradiction
    · rw [if_neg hk] at h1
      simp only [mergeFirstPart]
      cases hd : dlookup d2 k1 <;>
        · simp only [dlookup]
          rw [if_neg hk]
          exact ih h1

theorem secondOnly_of_none {d1 : Dict} {k : String} (d2 : Dict)
    (h1 : dlookup d1 k = none) : dlookup (secondOnly d1 d2) k = dlookup d2 k := by
  induction d2 with
  | nil => simp [secondOnly, dlookup]
  | cons kv rest ih =>
    obtain ⟨k2, v2⟩ := kv
    by_cases hk : k2 = k
    · subst hk
      simp [secondOnly, List.filter_cons, h1, dlookup]
    · cases hd : dlookup d1 k2 with
      | none =>
        simp only [secondOnly, List.filter_cons, hd, Option.isNone_none, if_pos, dlookup,
          if_neg hk] at ih ⊢
        exact ih
      | some w =>
        simp only [secondOnly, List.filter_cons, hd, Option.isNone_some, Bool.false_eq_true,
          if_false, dlookup, if_neg hk] at ih ⊢
        exact ih

theorem secondOnly_of_some {d1 : Dict} {k : String} {v1 : Value} (d2 : Dict)
    (h1 : dlookup d1 k = some v1) : dlookup (secondOnly d1 d2) k = none := by
  induction d2 with
  | nil => simp [secondOnly, dlookup]
  | cons kv rest ih =>
    obtain ⟨k2, v2⟩ := kv
    by_cases hk : k2 = k
    · subst hk
      simp only [secondOnly, List.filter_cons, h1, Option.isNone_some, Bool.false_eq_true,
        if_false] at ih ⊢
      exact ih
    · cases hd : dlookup d1 k2 with
      | none =>
        simp only [secondOnly, List.filter_cons, hd, Option.isNone_none, if_pos, dlookup,
          if_neg hk] at ih ⊢
        exact ih
      | some w =>
        simp only [secondOnly, List.filter_cons, hd, Option.isNone_some, Bool.false_eq_true,
          if_false] at ih ⊢
        exact ih

theorem mergeEntries_both {d1 d2 : Dict} {k : String} {v1 v2 : Value}
    (h1 : dlookup d1 k = some v1) (h2 : dlookup d2 k = some v2) :
    dlookup (mergeEntries d1 d2) k = some (combineVal v1 v2) := by
  unfold mergeEntries
  exact dlookup_append_of_some _ (mergeFirstPart_both h1 h2)

theorem mergeEntries_first {d1 d2 : Dict} {k : String} {v1 : Value}
    (h1 : dlookup d1 k = some v1) (h2 : dlookup d2 k = none) :
    dlookup (mergeEntries d1 d2) k = some v1 := by
  unfold mergeEntries
  exact dlookup_append_of_some _ (mergeFirstPart_first h1 h2)

theorem mergeEntries_second {d1 d2 : Dict} {k : String}
    (h1 : dlookup d1 k = none) :
    dlookup (mergeEntries d1 d2) k = dlookup d2 k := by
  unfold mergeEntries
  rw [dlookup_append_of_none _ (mergeFirstPart_none d2 h1)]
  exact secondOnly_of_none d2 h1

/-- C4: the structural merge yields the empty mapping on two absent
arguments; on a key shared by both dicts it merges two mapping values
recursively, concatenates two sequence values (base first), and
otherwise replaces the base value with the override value; in
particular merging the two singleton list dicts gives the
concatenated list. -/
theorem mergeDicts_structural_spec :
    mergeDicts none none = [] ∧
    (∀ (d1 d2 : Dict) (k : String) (a b : List (String × Value)),
      dlookup d1 k = some (Value.vdict a) → dlookup d2 k = some (Value.vdict b) →
      dlookup (mergeDicts (some d1) (some d2)) k = some (Value.vdict (mergeEntries a b))) ∧
    (∀ (d1 d2 : Dict) (k : String) (xs ys : List Value),
      dlookup d1 k = some (Value.vlist xs) → dlookup d2 k = some (Value.vlist ys) →
      dlookup (mergeDicts (some d1) (some d2)) k = some (Value.vlist (xs ++ ys))) ∧
    dlookup (mergeDicts (some [("l", Value.vlist [Value.vnum 1, Value.vnum 2])])
        (some [("l", Value.vlist [Value.vnum 3])])) "l"
      = some (Value.vlist [Value.vnum 1, Value.vnum 2, Value.vnum 3]) ∧
    (∀ (d1 d2 : Dict) (k : String) (v1 v2 : Value),
      dlookup d1 k = some v1 → dlookup d2 k = some v2 →
      (isDict v1 && isDict v2) = false → (isList v1 && isList v2) = false →
      dlookup (mergeDicts (some d1) (some d2)) k = some v2) := by
  refine ⟨rfl, ?_, ?_, by decide, ?_⟩
  · intro d1 d2 k a b h1 h2
    have := mergeEntries_both h1 h2
    simpa [mergeDicts, combineVal, mergeEntries] using this
  · intro d1 d2 k xs ys h1 h2
    have := mergeEntries_both h1 h2
    simpa [mergeDicts, combineVal] using this
  · intro d1 d2 k v1 v2 h1 h2 hd hl
    have := mergeEntries_both h1 h2
    have hcv : combineVal v1 v2 = v2 := by
      cases v1 <;> cases v2 <;> simp_all [combineVal, isDict, isList]
    rw [hcv] at this
    simpa [mergeDicts] using this

/-- C4 witness: the replace branch at a concrete shared string key. -/
theorem mergeDicts_structural_spec_witness :
    dlookup (mergeDicts (some [("k", Value.vstr "a")]) (some [("k", Value.vstr "b")])) "k"
      = some (Value.vstr "b") :=
  mergeDicts_structural_spec.2.2.2.2 [("k", Value.vstr "a")] [("k", Value.vstr "b")] "k"
    (Value.vstr "a") (Value.vstr "b") rfl rfl rfl rfl

theorem renderEntries_all_none {rs : RenderString} {entries : List (String × Value)} {ctx : Context}
    (h : ∀ kv ∈ entries, renderValue rs kv.2 ctx = none) :
    renderEntries rs entries ctx = [] := by
  induction entries with
  | nil => rfl
  | cons kv rest ih =>
    obtain ⟨k, v⟩ := kv
    have hv : renderValue rs v ctx = none := h (k, v) (List.mem_cons_self _ _)
    simp only [renderEntries, hv]
    exact ih (fun kv hkv => h kv (List.mem_cons_of_mem _ hkv))

theorem renderItems_all_none {rs : RenderString} {items : List Value} {ctx : Context}
    (h : ∀ item ∈ items, renderValue rs item ctx = none) :
    renderItems rs items ctx = [] := by
  induction items with
  | nil => rfl
  | cons item rest ih =>
    have hv : renderValue rs item ctx = none := h item (List.mem_cons_self _ _)
    simp only [renderItems, hv]
    exact ih (fun x hx => h x (List.mem_cons_of_mem _ hx))

/-- C5: rendering prunes empties bottom-up.  A string rendering to
the empty string renders to None; a mapping all of whose values
render to None renders to None; a sequence all of whose items render
to None renders to None; and the concrete mapping of an empty string
under a nested mapping of an empty string renders to None whenever
the collaborator renders the empty template to the empty string
(which jinja2 does for every context). -/
theorem renderValue_prune_spec :
    (∀ (rs : RenderString) (s : String) (ctx : Context), rs (removeOmit s) ctx = "" →
      renderValue rs (Value.vstr s) ctx = none) ∧
    (∀ (rs : RenderString) (entries : List (String × Value)) (ctx : Context),
      (∀ kv ∈ entries, renderValue rs kv.2 ctx = none) →
      renderValue rs (Value.vdict entries) ctx = none) ∧
    (∀ (rs : RenderString) (items : List Value) (ctx : Context),
      (∀ item ∈ items, renderValue rs item ctx = none) →
      renderValue rs (Value.vlist items) ctx = none) ∧
    (∀ (rs : RenderString) (ctx : Context), rs "" ctx = "" →
      renderValue rs
        (Value.vdict [("a", Value.vstr ""), ("b", Value.vdict [("c", Value.vstr "")])]) ctx
        = none) := by
  have hstr : ∀ (rs : RenderString) (s : String) (ctx : Context), rs (removeOmit s) ctx = "" →
      renderValue rs (Value.vstr s) ctx = none := by
    intro rs s ctx h
    simp [renderValue, h]
  have hdict : ∀ (rs : RenderString) (entries : List (String × Value)) (ctx : Context),
      (∀ kv ∈ entries, renderValue rs kv.2 ctx = none) →
      renderValue rs (Value.vdict entries) ctx = none := by
    intro rs entries ctx h
    simp [renderValue, renderEntries_all_none h]
  have hlist : ∀ (rs : RenderString) (items : List Value) (ctx : Context),
      (∀ item ∈ items, renderValue rs item ctx = none) →
      renderValue rs (Value.vlist items) ctx = none := by
    intro rs items ctx h
    simp [renderValue, renderItems_all_none h]
  refine ⟨hstr, hdict, hlist, ?_⟩
  intro rs ctx h
  have hempty : renderValue rs (Value.vstr "") ctx = none := by
    apply hstr
    have : removeOmit "" = "" := rfl
    rw [this, h]
  apply hdict
  intro kv hkv
  simp only [List.mem_cons, List.not_mem_nil, or_false] at hkv
  rcases hkv with h1 | h1
  · subst h1
    exact hempty
  · subst h1
    apply hdict
    intro kv2 hkv2
    simp only [List.mem_cons, List.not_mem_nil, or_false] at hkv2
    subst hkv2
    exact hempty

/-- C5 witness: the identity collaborator on the concrete mapping. -/
theorem renderValue_prune_spec_witness :
    renderValue (fun s _ => s)
      (Value.vdict [("a", Value.vstr ""), ("b", Value.vdict [("c", Value.vstr "")])]) []
      = none :=
  renderValue_prune_spec.2.2.2 (fun s _ => s) [] rfl

/-- C6 counterexample: the scalar None is treated as absent by
_render_value (the final else branch returns the Python None object,
which the callers cannot tell apart from a pruned value), so a null
entry is dropped and the singleton mapping holding it collapses to
None, against the claim that null passes through and is never
dropped. -/
theorem renderValue_null_dropped_cex :
    renderValue (fun s _ => s) Value.vnull [] = none ∧
    renderValue (fun s _ => s) (Value.vdict [("k", Value.vnull)]) [] = none := by
  decide

/-- C6 amended: booleans and numbers pass through rendering unchanged
and are never dropped from a parent mapping or sequence, while the
value None renders to the absent sentinel and is dropped. -/
theorem renderValue_scalar_spec :
    ∀ (rs : RenderString) (ctx : Context),
      (∀ b, renderValue rs (Value.vbool b) ctx = some (Value.vbool b)) ∧
      (∀ n, renderValue rs (Value.vnum n) ctx = some (Value.vnum n)) ∧
      renderValue rs Value.vnull ctx = none ∧
      (∀ k b rest, renderEntries rs ((k, Value.vbool b) :: rest) ctx
        = (k, Value.vbool b) :: renderEntries rs rest ctx) ∧
      (∀ n rest, renderItems rs (Value.vnum n :: rest) ctx
        = Value.vnum n :: renderItems rs rest ctx) := by
  intro rs ctx
  refine ⟨fun b => rfl, fun n => rfl, rfl, fun k b rest => rfl, fun n rest => rfl⟩

/-- C3: resolving C against A holding x 1 and B holding x 2 with
based_on listing A before B gives x 1 (the earlier-listed parent
wins), and when C itself defines x 9 the resolution gives x 9 (the
own value of the child wins over every parent). -/
theorem templatePrecedence_spec :
    resolvedLookup "C" ptsPrecedence "x" = some (Value.vnum 1) ∧
    resolvedLookup "C" ptsPrecedenceOwn "x" = some (Value.vnum 9) := by
  decide

/-- C8: resolving either template of the cyclic pair fails with the
cyclic-inheritance RuntimeError once the recursion ceiling 20 is
exceeded; neither resolution returns a result. -/
theorem cyclicInheritance_spec :
    containerTemplateInit "A" ptsCyclic = Except.error cyclicBasedOnMsg ∧
    containerTemplateInit "B" ptsCyclic = Except.error cyclicBasedOnMsg := by
  decide

/-- C7 counterexample: resolving the template C, whose declaration
carries a based_on key, succeeds with a result that still contains
the based_on key, and the rendered configuration built from the
resolved template also contains it; the claim that the based_on
field is excluded from the resolved template and the emitted output
is false on this input. -/
theorem basedOn_excluded_cex :
    resolvedLookup "C" ptsBasedOn "based_on" = some (Value.vstr "A") ∧
    (containerConfigurationInit (fun s _ => s) "inst"
        { name := "C",
          template := [("image", Value.vstr "img"), ("based_on", Value.vstr "A"), ("x", Value.vnum 1)] }
        []).toOption.map (fun r => dlookup r.1.configuration "based_on")
      = some (some (Value.vstr "A")) := by
  decide

theorem foldl_except_error {α β : Type} (f : Except String α → β → Except String α)
    (hf0 : ∀ e b, f (Except.error e) b = Except.error e) :
    ∀ (l : List β) (e : String), l.foldl f (Except.error e) = Except.error e := by
  intro l
  induction l with
  | nil => intro e; rfl
  | cons b rest ih =>
    intro e
    rw [List.foldl_cons, hf0]
    exact ih e

theorem foldl_except_preserve {α β : Type} (f : Except String α → β → Except String α)
    (P : α → Prop)
    (hf0 : ∀ e b, f (Except.error e) b = Except.error e)
    (hf : ∀ a b x, f (Except.ok a) b = Except.ok x → P a → P x) :
    ∀ (l : List β) (a res : α), l.foldl f (Except.ok a) = Except.ok res → P a → P res := by
  intro l
  induction l with
  | nil =>
    intro a res h hp
    injection h with h
    rwa [h] at hp
  | cons b rest ih =>
    intro a res h hp
    rw [List.foldl_cons] at h
    cases hstep : f (Except.ok a) b with
    | error e =>
      rw [hstep, foldl_except_error f hf0] at h
      exact absurd h (by simp)
    | ok x =>
      rw [hstep] at h
      exact ih x res h (hf a b x hstep hp)

theorem mergeDicts_override_isSome {pt2 cur : Dict} {k : String}
    (h : (dlookup cur k).isSome) :
    (dlookup (mergeDicts (some pt2) (some cur)) k).isSome := by
  obtain ⟨v, hv⟩ := Option.isSome_iff_exists.mp h
  cases hd : dlookup pt2 k with
  | none =>
    show (dlookup (mergeEntries pt2 cur) k).isSome
    rw [mergeEntries_second hd, hv]
    rfl
  | some w =>
    show (dlookup (mergeEntries pt2 cur) k).isSome
    rw [mergeEntries_both hd hv]
    rfl

/-- C7 amended, inner form over the fuel variant: when the declared
template of the requested name carries a based_on key, a successful
resolution returns a dict that still carries the based_on key. -/
theorem goTemplate_basedOn_retained :
    ∀ (fuel : Nat) (name : String) (pts : PartialTemplates) (rl : Nat) (pt d : Dict),
      tlookup pts name = some pt → (dlookup pt "based_on").isSome →
      goTemplate fuel name pts rl = Except.ok d → (dlookup d "based_on").isSome := by
  intro fuel name pts rl pt d hpt hb hgo
  obtain ⟨bo, hbo⟩ := Option.isSome_iff_exists.mp hb
  unfold goTemplate at hgo
  simp only [hpt] at hgo
  by_cases hrl : rl > 20
  · simp only [if_pos hrl] at hgo
    exact absurd hgo (by simp)
  simp only [if_neg hrl] at hgo
  cases fuel with
  | zero => exact absurd hgo (by simp)
  | succ fuel2 =>
    simp only [hbo] at hgo
    cases bo with
    | vnull =>
      injection hgo with hgo
      rw [← hgo]
      exact hb
    | vstr str =>
      dsimp only at hgo
      by_cases hs : removeOmit str = ""
      · rw [if_pos hs] at hgo
        injection hgo with hgo
        rw [← hgo]
        exact hb
      · rw [if_neg hs] at hgo
        cases hrec : goTemplate fuel2 (removeOmit str) pts (rl + 1) with
        | error e =>
          rw [hrec] at hgo
          exact absurd hgo (by simp)
        | ok parentTemplate =>
          rw [hrec] at hgo
          injection hgo with hgo
          rw [← hgo]
          exact mergeDicts_override_isSome hb
    | vlist parents =>
      refine foldl_except_preserve _ (fun cur => (dlookup cur "based_on").isSome)
        (fun e b => rfl) ?_ parents pt d hgo hb
      intro a b x hstep hp
      dsimp only at hstep
      cases b with
      | vstr str =>
        dsimp only at hstep
        by_cases hs : removeOmit str = ""
        · rw [if_pos hs] at hstep
          injection hstep with hstep
          rwa [← hstep]
        · rw [if_neg hs] at hstep
          cases hrec : goTemplate fuel2 (removeOmit str) pts (rl + 1) with
          | error e =>
            rw [hrec] at hstep
            exact absurd hstep (by simp)
          | ok parentTemplate =>
            rw [hrec] at hstep
            injection hstep with hstep
            rw [← hstep]
            exact mergeDicts_override_isSome hp
      | vnull => injection hstep with hstep; rwa [← hstep]
      | vbool b2 => injection hstep with hstep; rwa [← hstep]
      | vnum n => injection hstep with hstep; rwa [← hstep]
      | vlist l => injection hstep with hstep; rwa [← hstep]
      | vdict e2 => injection hstep with hstep; rwa [← hstep]
    | vbool b2 =>
      injection hgo with hgo
      rw [← hgo]
      exact hb
    | vnum n =>
      injection hgo with hgo
      rw [← hgo]
      exact hb
    | vdict e2 =>
      injection hgo with hgo
      rw [← hgo]
      exact hb

/-- C7 amended: the resolved template of a declaration that carries a
based_on key retains the based_on key (the field is not excluded from
the result of _get_parent_template and hence flows into rendering). -/
theorem basedOn_retained_spec (name : String) (pts : PartialTemplates) (pt : Dict)
    (t : ContainerTemplate) (hpt : tlookup pts name = some pt)
    (hb : (dlookup pt "based_on").isSome)
    (h : containerTemplateInit name pts = Except.ok t) :
    (dlookup t.template "based_on").isSome := by
  unfold containerTemplateInit at h
  cases hres : getParentTemplate name pts 0 with
  | error e =>
    rw [hres] at h
    exact absurd h (by simp)
  | ok d =>
    rw [hres] at h
    injection h with h
    have : (dlookup d "based_on").isSome :=
      goTemplate_basedOn_retained 21 name pts 0 pt d hpt hb hres
    rw [← h]
    exact this

/-- C7 amended witness: the concrete template set of the
counterexample. -/
theorem basedOn_retained_spec_witness :
    (dlookup (ContainerTemplate.mk "C"
        [("image", Value.vstr "img"), ("based_on", Value.vstr "A"), ("x", Value.vnum 1)]).template
        "based_on").isSome :=
  basedOn_retained_spec "C" ptsBasedOn
    [("based_on", Value.vstr "A"), ("x", Value.vnum 1)]
    (ContainerTemplate.mk "C"
      [("image", Value.vstr "img"), ("based_on", Value.vstr "A"), ("x", Value.vnum 1)])
    (by decide) (by decide) (by decide)

theorem dlookup_dset_self (d : Dict) (key : String) (v : Value) :
    dlookup (dset d key v) key = some v := by
  unfold dset
  cases hn : dlookup d key with
  | none =>
    simp only [hn, Option.isSome_none, Bool.false_eq_true, if_false]
    rw [dlookup_append_of_none _ hn]
    simp [dlookup]
  | some w =>
    simp only [hn, Option.isSome_some, if_true]
    induction d with
    | nil => simp [dlookup] at hn
    | cons kv rest ih =>
      obtain ⟨k1, v1⟩ := kv
      simp only [dlookup] at hn
      simp only [List.map_cons]
      dsimp only
      by_cases hk : k1 = key
      · rw [if_pos hk]
        simp [dlookup]
      · rw [if_neg hk] at hn
        rw [if_neg hk]
        simp only [dlookup, if_neg hk]
        exact ih hn

/-- C9: building a ContainerConfiguration fails with the
missing-image error exactly when the rendered configuration has no
image key or its image value is None, and a successful build always
carries a non-None image value in its configuration. -/
theorem containerConfigurationInit_image_spec
    (rs : RenderString) (name : String) (template : ContainerTemplate) (config : Dict) :
    (containerConfigurationInit rs name template config = Except.error missingImageMsg ↔
      (dlookup (createRenderedConfiguration rs name template config).1 "image" = none ∨
       dlookup (createRenderedConfiguration rs name template config).1 "image"
         = some Value.vnull)) ∧
    (∀ cc config2, containerConfigurationInit rs name template config = Except.ok (cc, config2) →
      ∃ v, dlookup cc.configuration "image" = some v ∧ v ≠ Value.vnull) := by
  constructor
  · unfold containerConfigurationInit
    cases himg : dlookup (createRenderedConfiguration rs name template config).1 "image" with
    | none => simp
    | some v => cases v <;> simp
  · intro cc config2 h
    unfold containerConfigurationInit at h
    cases himg : dlookup (createRenderedConfiguration rs name template config).1 "image" with
    | none =>
      rw [himg] at h
      exact absurd h (by simp)
    | some v =>
      rw [himg] at h
      cases v
      case vnull => exact absurd h (by simp)
      all_goals
        dsimp only at h
        injection h with h2
        injection h2 with hcc hcfg
        subst hcc
        exact ⟨_, himg, by simp⟩

/-- C9 witness: a concrete successful build whose configuration
carries a non-None image. -/
theorem containerConfigurationInit_image_spec_witness :
    ∃ v, dlookup (ContainerConfiguration.mk "c1" "t1" [("image", Value.vstr "img")]).configuration
      "image" = some v ∧ v ≠ Value.vnull :=
  (containerConfigurationInit_image_spec (fun s _ => s) "c1"
      (ContainerTemplate.mk "t1" [("image", Value.vstr "img")]) []).2
    (ContainerConfiguration.mk "c1" "t1" [("image", Value.vstr "img")])
    [("CONTAINER_CONFIG_NAME", Value.vstr "c1")] (by decide)

/-- C10: _create_rendered_configuration writes the instance name
into the caller-supplied config dict under CONTAINER_CONFIG_NAME (in
the model the mutated dict is the second component), and after a
successful build the returned mutated dict carries that entry. -/
theorem configMutation_spec
    (rs : RenderString) (name : String) (template : ContainerTemplate) (config : Dict) :
    dlookup (createRenderedConfiguration rs name template config).2 "CONTAINER_CONFIG_NAME"
      = some (Value.vstr name) ∧
    (∀ cc config2, containerConfigurationInit rs name template config = Except.ok (cc, config2) →
      dlookup config2 "CONTAINER_CONFIG_NAME" = some (Value.vstr name)) := by
  have hset : dlookup (createRenderedConfiguration rs name template config).2 "CONTAINER_CONFIG_NAME"
      = some (Value.vstr name) := by
    unfold createRenderedConfiguration
    exact dlookup_dset_self config "CONTAINER_CONFIG_NAME" (Value.vstr name)
  refine ⟨hset, ?_⟩
  intro cc config2 h
  unfold containerConfigurationInit at h
  cases himg : dlookup (createRenderedConfiguration rs name template config).1 "image" with
  | none =>
    rw [himg] at h
    exact absurd h (by simp)
  | some v =>
    rw [himg] at h
    cases v
    case vnull => exact absurd h (by simp)
    all_goals
      dsimp only at h
      injection h with h2
      injection h2 with hcc hcfg
      subst hcfg
      exact hset

/-- C10 witness: a concrete build whose returned config dict carries
the added CONTAINER_CONFIG_NAME entry. -/
theorem configMutation_spec_witness :
    dlookup [("CONTAINER_CONFIG_NAME", Value.vstr "c1")] "CONTAINER_CONFIG_NAME"
      = some (Value.vstr "c1") :=
  (configMutation_spec (fun s _ => s) "c1"
      (ContainerTemplate.mk "t1" [("image", Value.vstr "img")]) []).2
    (ContainerConfiguration.mk "c1" "t1" [("image", Value.vstr "img")])
    [("CONTAINER_CONFIG_NAME", Value.vstr "c1")] (by decide)

theorem goLinkOrder_succ (fuel2 : Nat) (c : ContainerConfiguration)
    (configs : List ContainerConfiguration) (rl : Nat) :
    goLinkOrder (fuel2 + 1) c configs rl =
      if rl > 20 then Except.error cyclicLinkMsg
      else
        match getLinkedContainer c with
        | none => Except.ok [c]
        | some cntLinks => cntLinks.foldl (linkStep fuel2 configs (rl + 1)) (Except.ok [c]) :=
  rfl

theorem goLinkOrder_zero (c : ContainerConfiguration)
    (configs : List ContainerConfiguration) (rl : Nat) :
    goLinkOrder 0 c configs rl = Except.error cyclicLinkMsg := by
  unfold goLinkOrder
  split <;> rfl

theorem append_eq_append_cons {α : Type} (a b p s : List α) (x : α)
    (h : a ++ b = p ++ x :: s) :
    (∃ s2, a = p ++ x :: s2 ∧ s = s2 ++ b) ∨ (∃ p2, b = p2 ++ x :: s ∧ p = a ++ p2) := by
  induction a generalizing p with
  | nil =>
    right
    exact ⟨p, h, rfl⟩
  | cons y a2 ih =>
    cases p with
    | nil =>
      simp only [List.nil_append, List.cons_append] at h
      injection h with h1 h2
      subst h1
      left
      exact ⟨a2, by simp, h2.symm⟩
    | cons z p2 =>
      simp only [List.cons_append] at h
      injection h with h1 h2
      subst h1
      rcases ih p2 h2 with ⟨s2, ha, hs⟩ | ⟨p3, hb, hp⟩
      · left
        exact ⟨s2, by rw [ha, List.cons_append], hs⟩
      · right
        exact ⟨p3, hb, by rw [List.cons_append, hp]⟩

theorem linksBefore_append {configs a b : List ContainerConfiguration}
    (ha : LinksBefore configs a) (hb : LinksBefore configs b) :
    LinksBefore configs (a ++ b) := by
  intro x L hr p s hps
  rcases append_eq_append_cons a b p s x hps with ⟨s2, h1, h2⟩ | ⟨p2, h1, h2⟩
  · exact ha x L hr p s2 h1
  · subst h2
    exact List.mem_append_right a (hb x L hr p2 s h1)

theorem findByName_mem {configs : List ContainerConfiguration} {t : String}
    {cfg : ContainerConfiguration} (h : findByName configs t = some cfg) : cfg ∈ configs :=
  List.mem_of_find?_eq_some h

/-- Master facts about a successful get_link_order run: every element
of the produced order is the start configuration or one of the given
configurations, the start configuration closes the order, and every
occurrence of a configuration in the order is preceded by each of
its resolved link targets. -/
theorem goLinkOrder_master :
    ∀ (fuel : Nat) (configs : List ContainerConfiguration) (rl : Nat)
      (c : ContainerConfiguration) (lo : List ContainerConfiguration),
      goLinkOrder fuel c configs rl = Except.ok lo →
      (∀ x ∈ lo, x = c ∨ x ∈ configs) ∧ (∃ pre, lo = pre ++ [c]) ∧
      LinksBefore configs lo := by
  intro fuel
  induction fuel with
  | zero =>
    intro configs rl c lo h
    rw [goLinkOrder_zero] at h
    exact absurd h (by simp)
  | succ fuel2 ih =>
    intro configs rl c lo h
    rw [goLinkOrder_succ] at h
    by_cases hrl : rl > 20
    · rw [if_pos hrl] at h
      exact absurd h (by simp)
    rw [if_neg hrl] at h
    cases hlinks : getLinkedContainer c with
    | none =>
      rw [hlinks] at h
      injection h with h
      subst h
      refine ⟨fun x hx => Or.inl (by simpa using hx), ⟨[], rfl⟩, ?_⟩
      intro x L hr p s hps
      cases p with
      | nil =>
        simp only [List.nil_append] at hps
        injection hps with h1 h2
        subst h1
        obtain ⟨links, str, hl, _, _⟩ := hr
        rw [hlinks] at hl
        exact absurd hl (by simp)
      | cons z p2 =>
        injection hps with h1 h2
        exact absurd h2 (by simp)
    | some cntLinks =>
      rw [hlinks] at h
      -- the fold lemma, inline as an induction over the link list
      suffices hfold : ∀ (links : List Value) (acc res : List ContainerConfiguration),
          links.foldl (linkStep fuel2 configs (rl + 1)) (Except.ok acc) = Except.ok res →
          ∃ J, res = J ++ acc ∧ (∀ x ∈ J, x ∈ configs) ∧ LinksBefore configs J ∧
            (∀ s L, Value.vstr s ∈ links → findByName configs (stripAlias s) = some L →
              L ∈ J) by
        obtain ⟨J, hres, hJmem, hJlb, hJlink⟩ := hfold cntLinks [c] lo h
        subst hres
        refine ⟨?_, ⟨J, rfl⟩, ?_⟩
        · intro x hx
          rcases List.mem_append.mp hx with hx | hx
          · exact Or.inr (hJmem x hx)
          · exact Or.inl (by simpa using hx)
        · intro x L hr p s hps
          rcases append_eq_append_cons J [c] p s x hps with ⟨s2, h1, h2⟩ | ⟨p2, h1, h2⟩
          · exact hJlb x L hr p s2 h1
          · cases p2 with
            | nil =>
              simp only [List.nil_append] at h1
              injection h1 with h1a h1b
              subst h1a
              obtain ⟨links2, str, hl, hsl, hfind⟩ := hr
              rw [hlinks] at hl
              injection hl with hl
              subst hl
              rw [h2, List.append_nil]
              exact hJlink str L hsl hfind
            | cons z p3 =>
              simp only [List.cons_append] at h1
              injection h1 with h1a h1b
              exact absurd h1b (by simp)
      intro links
      induction links with
      | nil =>
        intro acc res hf
        injection hf with hf
        subst hf
        exact ⟨[], rfl, by simp, by intro x L hr p s hps; exact absurd hps (by simp), by simp⟩
      | cons link rest ihl =>
        intro acc res hf
        rw [List.foldl_cons] at hf
        cases link with
        | vstr str =>
          rw [show linkStep fuel2 configs (rl + 1) (Except.ok acc) (Value.vstr str) =
            (match findByName configs (stripAlias str) with
             | some cntConfig =>
               match goLinkOrder fuel2 cntConfig configs (rl + 1) with
               | Except.error e => Except.error e
               | Except.ok sub => Except.ok (sub ++ acc)
             | none => Except.ok acc) from rfl] at hf
          cases hfind : findByName configs (stripAlias str) with
          | none =>
            rw [hfind] at hf
            dsimp only at hf
            obtain ⟨J, hres, hJmem, hJlb, hJlink⟩ := ihl acc res hf
            refine ⟨J, hres, hJmem, hJlb, ?_⟩
            intro s L hsl hfind2
            rcases List.mem_cons.mp hsl with hsl | hsl
            · injection hsl with hsl
              subst hsl
              rw [hfind] at hfind2
              exact absurd hfind2 (by simp)
            · exact hJlink s L hsl hfind2
          | some cfg =>
            rw [hfind] at hf
            dsimp only at hf
            cases hsub : goLinkOrder fuel2 cfg configs (rl + 1) with
            | error e =>
              rw [hsub] at hf
              dsimp only at hf
              rw [foldl_except_error _ (fun e b => rfl)] at hf
              exact absurd hf (by simp)
            | ok sub =>
              rw [hsub] at hf
              dsimp only at hf
              obtain ⟨J2, hres, hJmem, hJlb, hJlink⟩ := ihl (sub ++ acc) res hf
              obtain ⟨hsubmem, ⟨spre, hspre⟩, hsublb⟩ :=
                ih configs (rl + 1) cfg sub hsub
              have hcfgmem : cfg ∈ configs := findByName_mem hfind
              refine ⟨J2 ++ sub, by rw [hres, List.append_assoc], ?_, ?_, ?_⟩
              · intro x hx
                rcases List.mem_append.mp hx with hx | hx
                · exact hJmem x hx
                · rcases hsubmem x hx with hx | hx
                  · rw [hx]; exact hcfgmem
                  · exact hx
              · refine linksBefore_append hJlb hsublb
              · intro s L hsl hfind2
                rcases List.mem_cons.mp hsl with hsl | hsl
                · injection hsl with hsl
                  subst hsl
                  rw [hfind] at hfind2
                  injection hfind2 with hfind2
                  subst hfind2
                  refine List.mem_append_right J2 ?_
                  rw [hspre]
                  exact List.mem_append_right spre (by simp)
                · exact List.mem_append_left sub (hJlink s L hsl hfind2)
        | vnull =>
          rw [show linkStep fuel2 configs (rl + 1) (Except.ok acc) Value.vnull =
            Except.error "TypeError: expected string or buffer" from rfl,
            foldl_except_error _ (fun e b => rfl)] at hf
          exact absurd hf (by simp)
        | vbool b =>
          rw [show linkStep fuel2 configs (rl + 1) (Except.ok acc) (Value.vbool b) =
            Except.error "TypeError: expected string or buffer" from rfl,
            foldl_except_error _ (fun e b => rfl)] at hf
          exact absurd hf (by simp)
        | vnum n =>
          rw [show linkStep fuel2 configs (rl + 1) (Except.ok acc) (Value.vnum n) =
            Except.error "TypeError: expected string or buffer" from rfl,
            foldl_except_error _ (fun e b => rfl)] at hf
          exact absurd hf (by simp)
        | vlist l =>
          rw [show linkStep fuel2 configs (rl + 1) (Except.ok acc) (Value.vlist l) =
            Except.error "TypeError: expected string or buffer" from rfl,
            foldl_except_error _ (fun e b => rfl)] at hf
          exact absurd hf (by simp)
        | vdict e2 =>
          rw [show linkStep fuel2 configs (rl + 1) (Except.ok acc) (Value.vdict e2) =
            Except.error "TypeError: expected string or buffer" from rfl,
            foldl_except_error _ (fun e b => rfl)] at hf
          exact absurd hf (by simp)

theorem goodAcc_nil (configs : List ContainerConfiguration) : GoodAcc configs [] := by
  refine ⟨List.nodup_nil, by simp, ?_⟩
  intro x L hr p s hps
  exact absurd hps (by simp)

theorem appendNew_extends : ∀ (l acc : List ContainerConfiguration),
    ∃ ext, appendNew acc l = acc ++ ext := by
  intro l
  induction l with
  | nil => intro acc; exact ⟨[], by simp [appendNew]⟩
  | cons x rest ih =>
    intro acc
    by_cases hx : x ∈ acc
    · obtain ⟨ext, hext⟩ := ih acc
      exact ⟨ext, by rw [appendNew, if_pos hx, hext]⟩
    · obtain ⟨ext, hext⟩ := ih (acc ++ [x])
      refine ⟨[x] ++ ext, ?_⟩
      rw [appendNew, if_neg hx, hext, List.append_assoc]

theorem appendNew_mem_right : ∀ (l acc : List ContainerConfiguration) (y : ContainerConfiguration),
    y ∈ l → y ∈ appendNew acc l := by
  intro l
  induction l with
  | nil => intro acc y hy; exact absurd hy (by simp)
  | cons x rest ih =>
    intro acc y hy
    by_cases hx : x ∈ acc
    · rw [appendNew, if_pos hx]
      rcases List.mem_cons.mp hy with hy | hy
      · subst hy
        obtain ⟨ext, hext⟩ := appendNew_extends rest acc
        rw [hext]
        exact List.mem_append_left ext hx
      · exact ih acc y hy
    · rw [appendNew, if_neg hx]
      rcases List.mem_cons.mp hy with hy | hy
      · subst hy
        obtain ⟨ext, hext⟩ := appendNew_extends rest (acc ++ [y])
        rw [hext]
        exact List.mem_append_left ext (List.mem_append_right acc (by simp))
      · exact ih (acc ++ [x]) y hy

theorem appendNew_preserves_good (configs lo : List ContainerConfiguration)
    (hmem : ∀ x ∈ lo, x ∈ configs) (hlb : LinksBefore configs lo) :
    ∀ (rest done acc : List ContainerConfiguration), lo = done ++ rest →
      (∀ y ∈ done, y ∈ acc) → GoodAcc configs acc → GoodAcc configs (appendNew acc rest) := by
  intro rest
  induction rest with
  | nil =>
    intro done acc hsplit hdone hg
    rw [appendNew]
    exact hg
  | cons x rest2 ih =>
    intro done acc hsplit hdone hg
    by_cases hx : x ∈ acc
    · rw [appendNew, if_pos hx]
      refine ih (done ++ [x]) acc ?_ ?_ hg
      · rw [hsplit, List.append_cons]
      · intro y hy
        rcases List.mem_append.mp hy with hy | hy
        · exact hdone y hy
        · rw [List.mem_singleton.mp hy]
          exact hx
    · rw [appendNew, if_neg hx]
      have hxlo : x ∈ lo := by
        rw [hsplit]
        exact List.mem_append_right done (by simp)
      have hg2 : GoodAcc configs (acc ++ [x]) := by
        obtain ⟨hnd, hsub, hlbacc⟩ := hg
        refine ⟨?_, ?_, ?_⟩
        · rw [List.nodup_append]
          exact ⟨hnd, List.nodup_singleton x, by
            intro y hy hy2
            rw [List.mem_singleton.mp hy2] at hy
            exact hx hy⟩
        · intro y hy
          rcases List.mem_append.mp hy with hy | hy
          · exact hsub y hy
          · rw [List.mem_singleton.mp hy]
            exact hmem x hxlo
        · intro y L hr p s hps
          rcases append_eq_append_cons acc [x] p s y hps with ⟨s2, h1, h2⟩ | ⟨p2, h1, h2⟩
          · exact hlbacc y L hr p s2 h1
          · cases p2 with
            | nil =>
              simp only [List.nil_append] at h1
              injection h1 with h1a h1b
              subst h1a
              have hLdone : L ∈ done := hlb x L hr done rest2 hsplit
              rw [h2, List.append_nil]
              exact hdone L hLdone
            | cons z p3 =>
              simp only [List.cons_append] at h1
              injection h1 with h1a h1b
              exact absurd h1b (by simp)
      refine ih (done ++ [x]) (acc ++ [x]) ?_ ?_ hg2
      · rw [hsplit, List.append_cons]
      · intro y hy
        rcases List.mem_append.mp hy with hy | hy
        · exact List.mem_append_left [x] (hdone y hy)
        · exact List.mem_append_right acc hy

theorem mainPhase_good (configs : List ContainerConfiguration) :
    ∀ (rest acc res : List ContainerConfiguration), (∀ y ∈ rest, y ∈ configs) →
      GoodAcc configs acc → mainPhase configs rest acc = Except.ok res →
      GoodAcc configs res ∧ (∀ cfg ∈ rest, cfg ∈ res) ∧ (∃ ext, res = acc ++ ext) := by
  intro rest
  induction rest with
  | nil =>
    intro acc res hrest hg h
    injection h with h
    subst h
    exact ⟨hg, by simp, [], by simp⟩
  | cons cfg rest2 ih =>
    intro acc res hrest hg h
    rw [mainPhase] at h
    by_cases hc : cfg ∈ acc
    · rw [if_pos hc] at h
      obtain ⟨hgr, hmr, ext, hext⟩ := ih acc res (fun y hy => hrest y (List.mem_cons_of_mem _ hy)) hg h
      refine ⟨hgr, ?_, ext, hext⟩
      intro y hy
      rcases List.mem_cons.mp hy with hy | hy
      · subst hy
        rw [hext]
        exact List.mem_append_left ext hc
      · exact hmr y hy
    · rw [if_neg hc] at h
      cases hlo : getLinkOrder cfg configs 0 with
      | error e =>
        rw [hlo] at h
        exact absurd h (by simp)
      | ok lo =>
        rw [hlo] at h
        have hcfgc : cfg ∈ configs := hrest cfg (List.mem_cons_self _ _)
        obtain ⟨hloel, ⟨pre, hpre⟩, hlolb⟩ := goLinkOrder_master (21 - 0) configs 0 cfg lo hlo
        have hlomem : ∀ x ∈ lo, x ∈ configs := by
          intro x hx
          rcases hloel x hx with hx2 | hx2
          · rw [hx2]; exact hcfgc
          · exact hx2
        have hcfglo : cfg ∈ lo := by
          rw [hpre]
          exact List.mem_append_right pre (by simp)
        have hg2 : GoodAcc configs (appendNew acc lo) :=
          appendNew_preserves_good configs lo hlomem hlolb lo [] acc rfl (by simp) hg
        obtain ⟨hgr, hmr, ext2, hext2⟩ :=
          ih (appendNew acc lo) res (fun y hy => hrest y (List.mem_cons_of_mem _ hy)) hg2 h
        obtain ⟨ext1, hext1⟩ := appendNew_extends lo acc
        refine ⟨hgr, ?_, ext1 ++ ext2, ?_⟩
        · intro y hy
          rcases List.mem_cons.mp hy with hy | hy
          · subst hy
            rw [hext2]
            exact List.mem_append_left ext2 (appendNew_mem_right lo acc y hcfglo)
          · exact hmr y hy
        · rw [hext2, hext1, List.append_assoc]

theorem priorityInner_good (configs : List ContainerConfiguration) (name : Value) :
    ∀ (scan acc res : List ContainerConfiguration), (∀ y ∈ scan, y ∈ configs) →
      GoodAcc configs acc → priorityInner name configs scan acc = Except.ok res →
      GoodAcc configs res := by
  intro scan
  induction scan with
  | nil =>
    intro acc res hscan hg h
    injection h with h
    subst h
    exact hg
  | cons cfg rest ih =>
    intro acc res hscan hg h
    rw [priorityInner] at h
    by_cases hn : Value.vstr cfg.templateName = name
    · rw [if_pos hn] at h
      cases hlo : getLinkOrder cfg configs 0 with
      | error e =>
        rw [hlo] at h
        exact absurd h (by simp)
      | ok lo =>
        rw [hlo] at h
        have hcfgc : cfg ∈ configs := hscan cfg (List.mem_cons_self _ _)
        obtain ⟨hloel, ⟨pre, hpre⟩, hlolb⟩ := goLinkOrder_master (21 - 0) configs 0 cfg lo hlo
        have hlomem : ∀ x ∈ lo, x ∈ configs := by
          intro x hx
          rcases hloel x hx with hx2 | hx2
          · rw [hx2]; exact hcfgc
          · exact hx2
        have hg2 : GoodAcc configs (appendNew acc lo) :=
          appendNew_preserves_good configs lo hlomem hlolb lo [] acc rfl (by simp) hg
        exact ih (appendNew acc lo) res (fun y hy => hscan y (List.mem_cons_of_mem _ hy)) hg2 h
    · rw [if_neg hn] at h
      exact ih acc res (fun y hy => hscan y (List.mem_cons_of_mem _ hy)) hg h

theorem priorityPhase_good (configs : List ContainerConfiguration) :
    ∀ (names : List Value) (acc res : List ContainerConfiguration),
      GoodAcc configs acc → priorityPhase configs names acc = Except.ok res →
      GoodAcc configs res := by
  intro names
  induction names with
  | nil =>
    intro acc res hg h
    injection h with h
    subst h
    exact hg
  | cons name rest ih =>
    intro acc res hg h
    rw [priorityPhase] at h
    cases hin : priorityInner name configs configs acc with
    | error e =>
      rw [hin] at h
      exact absurd h (by simp)
    | ok acc2 =>
      rw [hin] at h
      exact ih acc2 res (priorityInner_good configs name configs acc acc2 (fun y hy => hy) hg hin) h

/-- C1: whenever create_run_order returns a sequence, that sequence
contains every input configuration exactly once, and for any
configuration with a resolved link (a string link entry whose
stripped target is found among the rendered names of the input
configurations) the link target appears strictly before it. -/
theorem createRunOrder_spec (configs : List ContainerConfiguration) (runOrder : Value)
    (result : List ContainerConfiguration)
    (h : createRunOrder configs runOrder = Except.ok result) :
    (∀ c ∈ configs, result.count c = 1) ∧
    (∀ c L, c ∈ configs → ResolvedLink configs c L → List.Sublist [L, c] result) := by
  have key : ∃ acc0, GoodAcc configs acc0 ∧ mainPhase configs configs acc0 = Except.ok result := by
    unfold createRunOrder at h
    cases runOrder with
    | vlist names =>
      dsimp only at h
      cases hp : priorityPhase configs names [] with
      | error e =>
        rw [hp] at h
        exact absurd h (by simp)
      | ok acc0 =>
        rw [hp] at h
        exact ⟨acc0, priorityPhase_good configs names [] acc0 (goodAcc_nil configs) hp, h⟩
    | vnull => exact ⟨[], goodAcc_nil configs, by dsimp only at h; exact h⟩
    | vbool b => exact ⟨[], goodAcc_nil configs, by dsimp only at h; exact h⟩
    | vnum n => exact ⟨[], goodAcc_nil configs, by dsimp only at h; exact h⟩
    | vstr s => exact ⟨[], goodAcc_nil configs, by dsimp only at h; exact h⟩
    | vdict e => exact ⟨[], goodAcc_nil configs, by dsimp only at h; exact h⟩
  obtain ⟨acc0, hg0, hm⟩ := key
  obtain ⟨⟨hnd, hsubset, hlb⟩, hmem, hext⟩ :=
    mainPhase_good configs configs acc0 result (fun y hy => hy) hg0 hm
  constructor
  · intro c hc
    exact List.count_eq_one_of_mem hnd (hmem c hc)
  · intro c L hc hr
    obtain ⟨p, s, hps⟩ := List.append_of_mem (hmem c hc)
    have hLp : L ∈ p := hlb c L hr p s hps
    rw [hps]
    have h1 : List.Sublist [L] p := List.singleton_sublist.mpr hLp
    have h2 : List.Sublist [c] (c :: s) := (List.nil_sublist s).cons₂ c
    exact h1.append h2

/-- C1 witness: a single configuration without links. -/
theorem createRunOrder_spec_witness :
    (∀ c ∈ [ContainerConfiguration.mk "solo" "tsolo" [("image", Value.vstr "i")]],
      ([ContainerConfiguration.mk "solo" "tsolo" [("image", Value.vstr "i")]] :
        List ContainerConfiguration).count c = 1) ∧
    (∀ c L, c ∈ [ContainerConfiguration.mk "solo" "tsolo" [("image", Value.vstr "i")]] →
      ResolvedLink [ContainerConfiguration.mk "solo" "tsolo" [("image", Value.vstr "i")]] c L →
      List.Sublist [L, c] [ContainerConfiguration.mk "solo" "tsolo" [("image", Value.vstr "i")]]) :=
  createRunOrder_spec [ContainerConfiguration.mk "solo" "tsolo" [("image", Value.vstr "i")]]
    Value.vnull [ContainerConfiguration.mk "solo" "tsolo" [("image", Value.vstr "i")]]
    (by decide)

/-- C2 counterexample: the link-target scan of get_link_order matches
the stripped link text against the rendered name entry of each
configuration (source line 479), never against the instance name.
For the pair whose instance names are db and web, where the rendered
configuration of web has the links entry db:alias but neither
rendered configuration carries a name entry, the lookup finds no
target and create_run_order keeps the supply order web before db
(with the priority list absent as well as empty), refuting the
claimed placement of db strictly before web regardless of supply
order. -/
theorem linkOrdering_instance_name_cex :
    createRunOrder [webPlainConfig, dbPlainConfig] Value.vnull
      = Except.ok [webPlainConfig, dbPlainConfig] ∧
    createRunOrder [webPlainConfig, dbPlainConfig] (Value.vlist [])
      = Except.ok [webPlainConfig, dbPlainConfig] ∧
    findByName [webPlainConfig, dbPlainConfig] "db" = none := by
  decide

/-- C2 amended: with the configurations named db and web whose
rendered configurations carry name entries db and web, where web
links to db under an alias, create_run_order places db strictly
before web for both supply orders, both with an empty priority list
and with a non-list priority value; the alias is stripped at the
first colon and the link-target lookup finds the configuration whose
rendered name entry equals the stripped text. -/
theorem linkOrdering_db_web_spec :
    createRunOrder [dbConfig, webConfig] (Value.vlist []) = Except.ok [dbConfig, webConfig] ∧
    createRunOrder [webConfig, dbConfig] (Value.vlist []) = Except.ok [dbConfig, webConfig] ∧
    createRunOrder [dbConfig, webConfig] Value.vnull = Except.ok [dbConfig, webConfig] ∧
    createRunOrder [webConfig, dbConfig] Value.vnull = Except.ok [dbConfig, webConfig] ∧
    stripAlias "db:alias" = "db" ∧
    findByName [webConfig, dbConfig] "db" = some dbConfig ∧
    findByName [dbConfig, webConfig] "db" = some dbConfig := by
  decide
